import Mathlib

/- A shallow embedding of the StringLib class from fuzzy_matching.py.

   Modelling conventions:
   * Python strings are lists of characters (Str). str.strip and str.lower are
     modelled for the character ranges the repository's data exercises.
   * unicodedata.normalize("NFKD", s).encode("ascii", "ignore").decode() is an
     external library capability; it is passed as an explicit parameter
     af : Str → Str wherever the source calls it.
   * rapidfuzz.fuzz.ratio is the external similarity scorer (spec section 6),
     passed as a parameter score : Str → Str → ℚ; rapidfuzz.process.extract is
     modelled as scoring every element of the candidate list and stably
     sorting by score descending, truncating to the limit argument.
   * Python dicts are insertion-ordered association lists; d[k] = v replaces an
     existing key in place or appends a new one, d.pop removes. The labelled
     collection entries of the source's single __strlib dict are modelled in a
     field separate from its two bookkeeping keys 'collections' and
     'total_strings' (labels are assumed distinct from those two keys, as in
     all of the repository's own usage).
   * Raised exceptions become Except errors; values associated to reference
     strings are modelled as strings (their type plays no role); the
     wall-clock 'time' field of get_top's result dict is omitted.
-/

abbrev Str := List Char

abbrev Val := Str

/-- Shorthand to write character-list literals. -/
def lit (s : String) : Str := s.data

/-- The kinds of exceptions the source raises (TypeError, KeyError,
ValueError, bare Exception). -/
inductive PyErr
  | typeError
  | keyError
  | valueError
  | exception
deriving DecidableEq

instance {ε α : Type} [DecidableEq ε] [DecidableEq α] : DecidableEq (Except ε α) := fun a b =>
  match a, b with
  | .error e1, .error e2 =>
    if h : e1 = e2 then .isTrue (by rw [h]) else .isFalse (by simp [h])
  | .error _, .ok _ => .isFalse (by simp)
  | .ok _, .error _ => .isFalse (by simp)
  | .ok a1, .ok a2 =>
    if h : a1 = a2 then .isTrue (by rw [h]) else .isFalse (by simp [h])

/-- Python str whitespace for strip purposes, modelled on the ASCII range. -/
def isPySpace (c : Char) : Bool := c.isWhitespace || c = '\x0b' || c = '\x0c'

/-- Python str.strip(): drop leading and trailing whitespace. -/
def pyStrip (s : Str) : Str :=
  ((s.dropWhile isPySpace).reverse.dropWhile isPySpace).reverse

/-- Python str.lower(), modelled on the ASCII range. -/
def pyLower (s : Str) : Str := s.map Char.toLower

/-- Dict lookup d[k] (as an Option). -/
def dictGet {κ α : Type} [DecidableEq κ] (m : List (κ × α)) (k : κ) : Option α :=
  match m with
  | [] => none
  | p :: rest => if p.1 = k then some p.2 else dictGet rest k

/-- Dict assignment d[k] = v: replace in place if the key exists, else append
(Python dicts keep insertion order). -/
def dictSet {κ α : Type} [DecidableEq κ] (m : List (κ × α)) (k : κ) (v : α) : List (κ × α) :=
  match m with
  | [] => [(k, v)]
  | p :: rest => if p.1 = k then (k, v) :: rest else p :: dictSet rest k v

/-- Dict removal d.pop(k, None): drop the entry if present. -/
def dictPop {κ α : Type} [DecidableEq κ] (m : List (κ × α)) (k : κ) : List (κ × α) :=
  match m with
  | [] => []
  | p :: rest => if p.1 = k then rest else p :: dictPop rest k

/-- dict(pairs): insert the pairs left to right, later values overriding
earlier ones at the first occurrence's position. Models dict(zip(keys, vals))
in set_pre_opt. -/
def dictOfPairs (l : List (Str × Val)) : List (Str × Val) :=
  l.foldl (fun m p => dictSet m p.1 p.2) []

/-- One step of the source's d.setdefault(length, []).append(x) pattern on an
integer-keyed dict of lists. -/
def bucketAdd {α : Type} (m : List (Nat × List α)) (k : Nat) (x : α) : List (Nat × List α) :=
  match m with
  | [] => [(k, [x])]
  | b :: rest => if b.1 = k then (b.1, b.2 ++ [x]) :: rest else b :: bucketAdd rest k x

/-- The grouping loop of add_col: feed (key, element) pairs into buckets. -/
def groupPairs {α : Type} : List (Nat × α) → List (Nat × List α) → List (Nat × List α)
  | [], m => m
  | p :: rest, m => groupPairs rest (bucketAdd m p.1 p.2)

/-- Group the elements of xs into length buckets, where ks lists the bucket
key of each element (in add_col: the length of the normalized reference). -/
def groupByLen {α : Type} (ks : List Nat) (xs : List α) : List (Nat × List α) :=
  groupPairs (ks.zip xs) []

/-- The per-label entry of the source's __strlib dict: preprocessing flags,
the stored original strings ('collection'), their count ('num_ref'), the
associated values, and the three parallel by-length dicts. -/
structure ColData where
  ignore_case : Bool
  to_ascii : Bool
  no_strip : Bool
  collection : List Str
  num_ref : Nat
  values : List Val
  col_by_len : List (Nat × List Str)
  ref_by_len : List (Nat × List Str)
  val_by_len : List (Nat × List Val)
deriving DecidableEq

/-- The state of a StringLib object: the 'collections' label list plus the
label-keyed part of the __strlib dict. -/
structure StringLib where
  collections : List Str
  data : List (Str × ColData)
deriving DecidableEq

/-- StringLib.__init__. -/
def emptyLib : StringLib := { collections := [], data := [] }

/-- The collection argument of add_col: a Python list of strings or a dict
from reference strings to values (dict keys are unique). -/
inductive Items
  | lst (l : List Str)
  | dct (l : List (Str × Val))
deriving DecidableEq

/-- len(collection). -/
def itemsLen : Items → Nat
  | .lst l => l.length
  | .dct l => l.length

/-- collection.copy() for a list, list(collection.keys()) for a dict. -/
def itemsKeys : Items → List Str
  | .lst l => l
  | .dct l => l.map Prod.fst

/-- [''] * len_col for a list, list(collection.values()) for a dict. -/
def itemsVals : Items → List Val
  | .lst l => l.map (fun _ => [])
  | .dct l => l.map Prod.snd

/-- The ColData record that add_col builds and stores: the pre-processing
block of the source (strip first, then the ascii fold and lower-casing per
the flags) followed by the by-length grouping loop. Note the stored
'collection' list is bound before the stripping rebinds pre_col, while the
by-length dicts are built from the stripped list. -/
def builtCol (af : Str → Str) (collection : Items)
    (ignore_case : Bool) (to_ascii : Bool) (no_strip : Bool) : ColData :=
  let pre0 := itemsKeys collection
  let values := itemsVals collection
  let len_col := pre0.length
  let pre := if !no_strip then pre0.map pyStrip else pre0
  let refs :=
    if to_ascii then
      if ignore_case then pre.map (fun s => pyLower (af s)) else pre.map af
    else
      if ignore_case then pre.map pyLower else pre
  let lens := refs.map List.length
  { ignore_case := ignore_case
    to_ascii := to_ascii
    no_strip := no_strip
    collection := pre0
    num_ref := len_col
    values := values
    col_by_len := groupByLen lens pre
    ref_by_len := groupByLen lens refs
    val_by_len := groupByLen lens values }

/-- StringLib.add_col. The af parameter is the external NFKD-plus-ascii-ignore
fold used when to_ascii is set. Type errors of the LBYL block are enforced by
the embedding's types; the remaining check is the less-than-2-items one, which
raises a bare Exception. Note the source never checks whether label is already
present: it unconditionally appends label to the 'collections' list and
assigns __strlib[label], overwriting any existing collection of that label. -/
def add_col (af : Str → Str) (lib : StringLib) (collection : Items) (label : Str)
    (ignore_case : Bool) (to_ascii : Bool) (no_strip : Bool) : Except PyErr StringLib :=
  if itemsLen collection > 1 then
    .ok { collections := lib.collections ++ [label]
          data := dictSet lib.data label (builtCol af collection ignore_case to_ascii no_strip) }
  else .error .exception

/-- StringLib.del_col: __strlib.pop(label, None) never raises, then
__strlib['collections'].remove(label) raises ValueError when label is absent
from the label list (in that case the pop was already a no-op on any
API-reachable state, so the state is unchanged). -/
def del_col (lib : StringLib) (label : Str) : Except PyErr StringLib :=
  let data1 := dictPop lib.data label
  if label ∈ lib.collections then
    .ok { collections := lib.collections.erase label, data := data1 }
  else .error .valueError

/-- StringLib.ren_col: pops old_label and assigns its data to new_label, then
fixes the label list. A missing old_label raises KeyError at the pop, which
the source catches and turns into a printed error message, leaving the state
unchanged; the Bool of the result records whether that message was printed.
When new_label is already present, its collection is silently overwritten and
the label list ends up holding new_label twice. (If old_label had data but
was missing from the label list — unreachable through the API — list.remove
would raise ValueError.) -/
def ren_col (lib : StringLib) (old_label new_label : Str) : Except PyErr (StringLib × Bool) :=
  match dictGet lib.data old_label with
  | none => .ok (lib, true)
  | some cd =>
    let data1 := dictSet (dictPop lib.data old_label) new_label cd
    if old_label ∈ lib.collections then
      .ok ({ collections := lib.collections.erase old_label ++ [new_label], data := data1 }, false)
    else .error .valueError

/-- StringLib.set_pre_opt. Arguments left as none model Python's None
defaults. Returns immediately when all three options are none — before the
empty-library and label-existence checks. When the resolved options equal the
current ones it is a no-op; otherwise it rebuilds via
dict(zip(collection, values)), del_col and add_col. -/
def set_pre_opt (af : Str → Str) (lib : StringLib) (label : Str)
    (ignore_case to_ascii no_strip : Option Bool) : Except PyErr StringLib :=
  if ignore_case = none ∧ to_ascii = none ∧ no_strip = none then .ok lib
  else if lib.collections = [] then .error .keyError
  else
    match dictGet lib.data label with
    | none => .error .keyError
    | some cd =>
      let ic := ignore_case.getD cd.ignore_case
      let ta := to_ascii.getD cd.to_ascii
      let ns := no_strip.getD cd.no_strip
      if cd.ignore_case = ic ∧ cd.to_ascii = ta ∧ cd.no_strip = ns then .ok lib
      else
        let temp_col := dictOfPairs (cd.collection.zip cd.values)
        match del_col lib label with
        | .error e => .error e
        | .ok lib1 => add_col af lib1 (.dct temp_col) label ic ta ns

/-- StringLib.col_info. The full listing iterates the col_by_len dict and
pairs each stored original with the same-index element of the ref_by_len and
val_by_len buckets of the same length (Python list indexing, modelled with a
default for the out-of-range case that real states never hit). -/
structure ColInfo where
  label : Str
  ignore_case : Bool
  to_ascii : Bool
  no_strip : Bool
  num_strings : Nat
  collection : Option (List (Str × Str × Val))
deriving DecidableEq

def colFullListing (cd : ColData) : List (Str × Str × Val) :=
  (cd.col_by_len.map (fun b =>
    b.2.enum.map (fun p =>
      (p.2, ((dictGet cd.ref_by_len b.1).getD []).getD p.1 [],
        ((dictGet cd.val_by_len b.1).getD []).getD p.1 [])))).flatten

def col_info (lib : StringLib) (label : Str) (full : Bool) : Except PyErr ColInfo :=
  if lib.collections = [] then .error .keyError
  else
    match dictGet lib.data label with
    | none => .error .keyError
    | some cd =>
      .ok { label := label
            ignore_case := cd.ignore_case
            to_ascii := cd.to_ascii
            no_strip := cd.no_strip
            num_strings := cd.num_ref
            collection := if full then some (colFullListing cd) else none }

/-- A single get_top result tuple:
(original string, collection label, matched normalized reference, value,
score). -/
abbrev Res5 := Str × Str × Str × Val × ℚ

/-- The score component of a result tuple (x[4] in the source's sort key). -/
def score5 (t : Res5) : ℚ := t.2.2.2.2

/-- The sort order of the source's temp_results.sort(reverse=True) on the
score key: higher scores first. -/
def ge5 (a b : Res5) : Prop := score5 b ≤ score5 a

instance : DecidableRel ge5 := fun a b => inferInstanceAs (Decidable (score5 b ≤ score5 a))

instance : IsTotal Res5 ge5 := ⟨fun a b => le_total (score5 b) (score5 a)⟩

instance : IsTrans Res5 ge5 := ⟨fun _ _ _ hab hbc => le_trans hbc hab⟩

/-- The descending score order used to model rapidfuzz.process.extract's
ranking of its (match, score, index) triples. -/
def geScored (a b : Str × ℚ × Nat) : Prop := b.2.1 ≤ a.2.1

instance : DecidableRel geScored := fun a b => inferInstanceAs (Decidable (b.2.1 ≤ a.2.1))

instance : IsTotal (Str × ℚ × Nat) geScored := ⟨fun a b => le_total (b.2.1) (a.2.1)⟩

instance : IsTrans (Str × ℚ × Nat) geScored := ⟨fun _ _ _ hab hbc => le_trans hbc hab⟩

/-- rapidfuzz.process.extract(query, refs, scorer=score, limit=limit): score
every candidate, rank by score descending (stable), return the best limit
triples (match, score, index-in-refs); limit none returns all of them. -/
def extractR (score : Str → Str → ℚ) (q : Str) (refs : List Str)
    (limit : Option Nat) : List (Str × ℚ × Nat) :=
  let scored := refs.enum.map (fun p => (p.2, score q p.2, p.1))
  let ranked := List.insertionSort geScored scored
  match limit with
  | none => ranked
  | some k => ranked.take k

/-- The result tuple built from one extract triple t of the bucket of length
len: (col_by_len[len][t.idx], label, t.match, val_by_len[len][t.idx],
t.score). -/
def mkTuple (label : Str) (cd : ColData) (len : Nat) (t : Str × ℚ × Nat) : Res5 :=
  (((dictGet cd.col_by_len len).getD []).getD t.2.2 [], label, t.1,
    ((dictGet cd.val_by_len len).getD []).getD t.2.2 [], t.2.1)

/-- The result tuples contributed by one surviving bucket. -/
def bucketTuples (score : Str → Str → ℚ) (q : Str) (limit : Option Nat)
    (label : Str) (cd : ColData) (b : Nat × List Str) : List Res5 :=
  (extractR score q b.2 limit).map (mkTuple label cd b.1)

/-- The inner loop of get_top over the ref_by_len buckets of one collection,
with q the query as normalized for this collection. Returns the skipped count
and the result tuples, in bucket order. The three skip branches mirror the
source: lmin first, then lmax (only when nonzero), then look_around (only
when at least 0); a skipped bucket contributes the length of
ref_by_len[length] to skipped. -/
def procBuckets (score : Str → Str → ℚ) (q : Str) (lmin lmax look_around : Int)
    (limit : Option Nat) (label : Str) (cd : ColData) :
    List (Nat × List Str) → Nat × List Res5
  | [] => (0, [])
  | b :: rest =>
    let rec_res := procBuckets score q lmin lmax look_around limit label cd rest
    if (b.1 : Int) < lmin then
      (((dictGet cd.ref_by_len b.1).getD []).length + rec_res.1, rec_res.2)
    else if lmax ≠ 0 ∧ (b.1 : Int) > lmax then
      (((dictGet cd.ref_by_len b.1).getD []).length + rec_res.1, rec_res.2)
    else if look_around > -1 ∧ (Int.natAbs ((b.1 : Int) - (q.length : Int)) : Int) > look_around then
      (((dictGet cd.ref_by_len b.1).getD []).length + rec_res.1, rec_res.2)
    else
      (rec_res.1, bucketTuples score q limit label cd b ++ rec_res.2)

/-- One step of the query preprocessing at the top of get_top's collection
loop (lines applying lower, the ascii fold and strip to the shared query
variable). Note it receives the query value left by the previous collection,
not the caller's original query. -/
def effQuery (af : Str → Str) (cd : ColData) (q : Str) : Str :=
  let q1 := if cd.ignore_case then pyLower q else q
  let q2 := if cd.to_ascii then af q1 else q1
  if !cd.no_strip then pyStrip q2 else q2

/-- The collection loop of get_top: threads the mutated query through the
collections in order, accumulating (total, skipped, temp_results). A label
without a dict entry raises KeyError when its settings are read. -/
def procCols (score : Str → Str → ℚ) (af : Str → Str)
    (lmin lmax look_around : Int) (limit : Option Nat) (lib : StringLib) :
    Str → List Str → Except PyErr (Nat × Nat × List Res5)
  | _, [] => .ok (0, 0, [])
  | q, c :: rest =>
    match dictGet lib.data c with
    | none => .error .keyError
    | some cd =>
      let q1 := effQuery af cd q
      let br := procBuckets score q1 lmin lmax look_around limit c cd cd.ref_by_len
      match procCols score af lmin lmax look_around limit lib q1 rest with
      | .error e => .error e
      | .ok (total, skipped, temp) =>
        .ok (cd.num_ref + total, br.1 + skipped, br.2 ++ temp)

/-- The final temp_results[:top] slice of get_top: on the internal top value
none (the source's None, standing for the argument 0) the slice is the
identity, otherwise it keeps the first top entries. -/
def clampTop (limit : Option Nat) (l : List Res5) : List Res5 :=
  match limit with
  | none => l
  | some k => l.take k

/-- The result dict of get_top (the wall-clock 'time' entry is omitted).
tested is total - skipped over the integers, as in Python. -/
structure QueryRes where
  query : Str
  skipped : Nat
  total : Nat
  results : List Res5
  collections : List Str
  tested : Int
deriving DecidableEq

/-- The part of get_top that follows the resolution of the collections
argument: the numeric validations (ValueError), then the collection loop and
the final ranking. Internally top=0 becomes the absent limit (Python None);
the final temp_results[:top] slice is then the identity slice. -/
def get_top_run (score : Str → Str → ℚ) (af : Str → Str) (lib : StringLib)
    (query : Str) (cols : List Str)
    (top look_around lmin lmax : Int) : Except PyErr (Option QueryRes) :=
  if top < 0 then .error .valueError
  else if look_around < -1 then .error .valueError
  else if lmin < 1 then .error .valueError
  else if lmax < 0 then .error .valueError
  else
    let limit : Option Nat := if top = 0 then none else some top.toNat
    match procCols score af lmin lmax look_around limit lib query cols with
    | .error e => .error e
    | .ok (total, skipped, temp) =>
      let final := clampTop limit (List.insertionSort ge5 temp)
      .ok (some
        { query := query
          skipped := skipped
          total := total
          results := final
          collections := cols
          tested := (total : Int) - (skipped : Int) })

/-- StringLib.get_top. Returns ok none for a whitespace-only query (the
source's early return of None). The collections argument defaults to the
library's label list both when it is none and when it is the empty list
(Python truthiness of the empty list); an explicitly given nonempty list is
checked for unknown labels (KeyError). Then get_top_run performs the numeric
validations and the scan. -/
def get_top (score : Str → Str → ℚ) (af : Str → Str) (lib : StringLib)
    (query : Str) (collections : Option (List Str))
    (top look_around lmin lmax : Int) : Except PyErr (Option QueryRes) :=
  if pyStrip query = [] then .ok none
  else
    match collections with
    | some cs =>
      if cs ≠ [] then
        if cs.all (fun c => (dictGet lib.data c).isSome) then
          get_top_run score af lib query cs top look_around lmin lmax
        else .error .keyError
      else get_top_run score af lib query lib.collections top look_around lmin lmax
    | none => get_top_run score af lib query lib.collections top look_around lmin lmax

/- Specification-side views of the query engine, used to state and prove the
properties below. They are defined from the same primitives as get_top and
related to it by the characterization lemmas that follow. -/

/-- The skip condition of get_top's bucket loop for a bucket of length len,
given the length qlen of the normalized query: the lmin bound, then the lmax
bound (only when lmax is nonzero), then the look_around window (only when
look_around is at least 0). -/
def bucketFails (lmin lmax look_around : Int) (qlen len : Nat) : Prop :=
  ((len : Int) < lmin) ∨ (lmax ≠ 0 ∧ (len : Int) > lmax) ∨
    (look_around > -1 ∧ (Int.natAbs ((len : Int) - (qlen : Int)) : Int) > look_around)

instance (lmin lmax look_around : Int) (qlen len : Nat) :
    Decidable (bucketFails lmin lmax look_around qlen len) := by
  unfold bucketFails
  infer_instance

/-- The query normalization states of get_top's collection loop: for each
label that resolves, the label, its collection data and the value the shared
query variable holds while that collection is scanned. -/
def colScan (af : Str → Str) (lib : StringLib) : Str → List Str → List (Str × ColData × Str)
  | _, [] => []
  | q, c :: rest =>
    match dictGet lib.data c with
    | none => []
    | some cd => (c, cd, effQuery af cd q) :: colScan af lib (effQuery af cd q) rest

/-- What one collection adds to 'skipped': for every failing bucket, the
length of ref_by_len[length] (the source's recomputed lookup). -/
def colSkip (lmin lmax look_around : Int) (t : Str × ColData × Str) : Nat :=
  ((t.2.1.ref_by_len.filter (fun b => decide (bucketFails lmin lmax look_around t.2.2.length b.1))).map
    (fun b => ((dictGet t.2.1.ref_by_len b.1).getD []).length)).sum

/-- What one collection adds to temp_results: the tuples of its surviving
buckets, in bucket order. -/
def colSurv (score : Str → Str → ℚ) (limit : Option Nat) (lmin lmax look_around : Int)
    (t : Str × ColData × Str) : List Res5 :=
  ((t.2.1.ref_by_len.filter (fun b => !decide (bucketFails lmin lmax look_around t.2.2.length b.1))).map
    (bucketTuples score t.2.2 limit t.1 t.2.1)).flatten

/-- Sum of the bucket sizes of a by-length dict. -/
def sumSizes {α : Type} (m : List (Nat × List α)) : Nat := (m.map (fun b => b.2.length)).sum

/-- Well-formedness of a collection's bucket store, as established by add_col:
bucket keys are distinct, the bucket sizes sum to num_ref, and every entry of
a bucket has the bucket's length. -/
def WFcol (cd : ColData) : Prop :=
  (cd.ref_by_len.map Prod.fst).Nodup ∧
  sumSizes cd.ref_by_len = cd.num_ref ∧
  ∀ b ∈ cd.ref_by_len, ∀ s ∈ b.2, s.length = b.1

instance (cd : ColData) : Decidable (WFcol cd) := by unfold WFcol; infer_instance

/-- Well-formedness of a library state: every stored collection is
well-formed. -/
def WF (lib : StringLib) : Prop := ∀ p ∈ lib.data, WFcol p.2

instance (lib : StringLib) : Decidable (WF lib) := by unfold WF; infer_instance

/- Association-list (Python dict) lemmas. -/

theorem dictGet_dictSet_self {κ α : Type} [DecidableEq κ] (m : List (κ × α)) (k : κ) (v : α) :
    dictGet (dictSet m k v) k = some v := by
  induction m with
  | nil => simp [dictSet, dictGet]
  | cons p rest ih =>
    by_cases h : p.1 = k
    · simp [dictSet, dictGet, h]
    · simp [dictSet, dictGet, h, ih]

theorem mem_of_dictGet_eq_some {κ α : Type} [DecidableEq κ] {m : List (κ × α)} {k : κ} {v : α}
    (h : dictGet m k = some v) : (k, v) ∈ m := by
  induction m with
  | nil => simp [dictGet] at h
  | cons p rest ih =>
    by_cases hp : p.1 = k
    · simp [dictGet, hp] at h
      subst h
      exact List.mem_cons.mpr (Or.inl (by rw [← hp]))
    · simp [dictGet, hp] at h
      exact List.mem_cons_of_mem p (ih h)

theorem dictGet_of_mem_nodup {κ α : Type} [DecidableEq κ] {m : List (κ × α)} {k : κ} {v : α}
    (hnd : (m.map Prod.fst).Nodup) (hmem : (k, v) ∈ m) : dictGet m k = some v := by
  induction m with
  | nil => simp at hmem
  | cons p rest ih =>
    simp only [List.map_cons, List.nodup_cons] at hnd
    rcases List.mem_cons.mp hmem with h | h
    · subst h
      simp [dictGet]
    · have hk : p.1 ≠ k := by
        intro he
        exact hnd.1 (he ▸ (List.mem_map.mpr ⟨(k, v), h, rfl⟩))
      simp [dictGet, hk, ih hnd.2 h]

theorem dictSet_of_not_mem_keys {κ α : Type} [DecidableEq κ] {m : List (κ × α)} {k : κ} (v : α)
    (h : k ∉ m.map Prod.fst) : dictSet m k v = m ++ [(k, v)] := by
  induction m with
  | nil => rfl
  | cons p rest ih =>
    simp only [List.map_cons, List.mem_cons] at h
    push_neg at h
    have hp : p.1 ≠ k := Ne.symm h.1
    simp [dictSet, hp, ih h.2]

theorem dictOfPairs_aux_of_nodup (l : List (Str × Val)) :
    ∀ m : List (Str × Val), ((m ++ l).map Prod.fst).Nodup →
      l.foldl (fun m p => dictSet m p.1 p.2) m = m ++ l := by
  induction l with
  | nil => intro m _; simp
  | cons p rest ih =>
    intro m hnd
    have hnd' : (m.map Prod.fst ++ p.1 :: rest.map Prod.fst).Nodup := by
      simpa [List.map_append] using hnd
    have hdisj := (List.nodup_append.mp hnd').2.2
    have hkey : p.1 ∉ m.map Prod.fst := fun hk => hdisj hk (List.mem_cons_self p.1 _)
    have step : dictSet m p.1 p.2 = m ++ [p] := dictSet_of_not_mem_keys p.2 hkey
    have hnd2 : (((m ++ [p]) ++ rest).map Prod.fst).Nodup := by
      simpa [List.append_assoc] using hnd
    calc (p :: rest).foldl (fun m q => dictSet m q.1 q.2) m
        = rest.foldl (fun m q => dictSet m q.1 q.2) (m ++ [p]) := by simp [List.foldl_cons, step]
      _ = (m ++ [p]) ++ rest := ih (m ++ [p]) hnd2
      _ = m ++ p :: rest := by simp [List.append_assoc]

/-- dict(zip(keys, values)) is the identity reshaping when the keys are
pairwise distinct. -/
theorem dictOfPairs_of_nodup {l : List (Str × Val)} (h : (l.map Prod.fst).Nodup) :
    dictOfPairs l = l := by
  simpa using dictOfPairs_aux_of_nodup l [] (by simpa using h)

/- Bucket-grouping lemmas. -/

theorem sumSizes_bucketAdd {α : Type} (m : List (Nat × List α)) (k : Nat) (x : α) :
    sumSizes (bucketAdd m k x) = sumSizes m + 1 := by
  induction m with
  | nil => simp [bucketAdd, sumSizes]
  | cons b rest ih =>
    by_cases h : b.1 = k
    · simp [bucketAdd, h, sumSizes]
      omega
    · simp [bucketAdd, h, sumSizes] at ih ⊢
      omega

theorem sumSizes_groupPairs {α : Type} (ps : List (Nat × α)) :
    ∀ m, sumSizes (groupPairs ps m) = sumSizes m + ps.length := by
  induction ps with
  | nil => intro m; simp [groupPairs]
  | cons p rest ih =>
    intro m
    simp [groupPairs, ih (bucketAdd m p.1 p.2), sumSizes_bucketAdd]
    omega

/-- Grouping indexes every element: the bucket sizes sum to the number of
grouped elements. -/
theorem sumSizes_groupByLen {α : Type} (ks : List Nat) (xs : List α)
    (h : ks.length = xs.length) : sumSizes (groupByLen ks xs) = xs.length := by
  unfold groupByLen
  rw [sumSizes_groupPairs]
  simp [sumSizes, List.length_zip, h]

theorem mem_bucketAdd {α : Type} {m : List (Nat × List α)} {k : Nat} {y : α}
    {b : Nat × List α} {x : α} (hb : b ∈ bucketAdd m k y) (hx : x ∈ b.2) :
    (∃ b2 ∈ m, b2.1 = b.1 ∧ x ∈ b2.2) ∨ (b.1 = k ∧ x = y) := by
  induction m with
  | nil =>
    simp [bucketAdd] at hb
    subst hb
    simp at hx
    exact Or.inr ⟨rfl, hx⟩
  | cons b0 rest ih =>
    by_cases h : b0.1 = k
    · simp [bucketAdd, h] at hb
      rcases hb with hb | hb
      · subst hb
        simp at hx
        rcases hx with hx | hx
        · exact Or.inl ⟨b0, List.mem_cons_self b0 rest, by simp [h], hx⟩
        · exact Or.inr ⟨rfl, hx⟩
      · exact Or.inl (by
          rcases hb with hb
          exact ⟨b, List.mem_cons_of_mem b0 hb, rfl, hx⟩)
    · simp [bucketAdd, h] at hb
      rcases hb with hb | hb
      · subst hb
        exact Or.inl ⟨b, List.mem_cons_self b rest, rfl, hx⟩
      · rcases ih hb with ⟨b2, hb2, he, hxx⟩ | hr
        · exact Or.inl ⟨b2, List.mem_cons_of_mem b0 hb2, he, hxx⟩
        · exact Or.inr hr

theorem mem_groupPairs {α : Type} {ps : List (Nat × α)} :
    ∀ {m : List (Nat × List α)} {b : Nat × List α} {x : α},
      b ∈ groupPairs ps m → x ∈ b.2 →
      (∃ b2 ∈ m, b2.1 = b.1 ∧ x ∈ b2.2) ∨ (b.1, x) ∈ ps := by
  induction ps with
  | nil =>
    intro m b x hb hx
    exact Or.inl ⟨b, hb, rfl, hx⟩
  | cons p rest ih =>
    intro m b x hb hx
    rcases ih (by simpa [groupPairs] using hb) hx with ⟨b2, hb2, he, hxx⟩ | hr
    · rcases mem_bucketAdd hb2 hxx with ⟨b3, hb3, he3, hx3⟩ | ⟨hk, hy⟩
      · exact Or.inl ⟨b3, hb3, he ▸ he3, hx3⟩
      · exact Or.inr (by
          subst hy
          simp [← he, hk])
    · exact Or.inr (List.mem_cons_of_mem p hr)

/-- Every element of a bucket of groupByLen ks xs occurs in xs, paired in the
zip with the bucket's key. -/
theorem mem_groupByLen {α : Type} {ks : List Nat} {xs : List α}
    {b : Nat × List α} {x : α} (hb : b ∈ groupByLen ks xs) (hx : x ∈ b.2) :
    (b.1, x) ∈ ks.zip xs := by
  rcases mem_groupPairs hb hx with ⟨b2, hb2, _, _⟩ | hr
  · simp at hb2
  · exact hr

/-- For the self-keyed grouping of add_col (keys are the lengths of the
grouped elements themselves). -/
theorem mem_groupByLen_self_key {α : Type} {f : α → Nat} {xs : List α}
    {b : Nat × List α} {x : α} (hb : b ∈ groupByLen (xs.map f) xs) (hx : x ∈ b.2) :
    x ∈ xs ∧ f x = b.1 := by
  have hmem := mem_groupByLen hb hx
  have hz : (xs.map f).zip xs = xs.map (fun a => (f a, a)) := by
    have := List.zip_map' f id xs
    simpa using this
  rw [hz] at hmem
  rcases List.mem_map.mp hmem with ⟨a, ha, he⟩
  have h1 : b.1 = f a := (congrArg Prod.fst he).symm
  have h2 : x = a := (congrArg Prod.snd he).symm
  subst h2
  exact ⟨ha, h1.symm⟩

/-- Bucket keys produced by grouping are distinct. -/
theorem keys_bucketAdd {α : Type} (m : List (Nat × List α)) (k : Nat) (x : α) :
    (bucketAdd m k x).map Prod.fst =
      if k ∈ m.map Prod.fst then m.map Prod.fst else m.map Prod.fst ++ [k] := by
  induction m with
  | nil => simp [bucketAdd]
  | cons b rest ih =>
    by_cases h : b.1 = k
    · simp [bucketAdd, h]
    · have h2 : k ≠ b.1 := fun he => h he.symm
      by_cases hk : k ∈ rest.map Prod.fst
      · simp [bucketAdd, h, ih, hk, h2]
      · simp [bucketAdd, h, ih, hk, h2]

theorem nodup_keys_groupPairs {α : Type} (ps : List (Nat × α)) :
    ∀ m : List (Nat × List α), (m.map Prod.fst).Nodup →
      ((groupPairs ps m).map Prod.fst).Nodup := by
  induction ps with
  | nil => intro m h; simpa [groupPairs] using h
  | cons p rest ih =>
    intro m h
    have : ((bucketAdd m p.1 p.2).map Prod.fst).Nodup := by
      rw [keys_bucketAdd]
      by_cases hk : p.1 ∈ m.map Prod.fst
      · simpa [hk] using h
      · simp only [hk, if_false]
        rw [List.nodup_append]
        refine ⟨h, List.nodup_singleton _, ?_⟩
        intro x hx hxp
        simp at hxp
        subst hxp
        exact hk hx
    simpa [groupPairs] using ih (bucketAdd m p.1 p.2) this

theorem nodup_keys_groupByLen {α : Type} (ks : List Nat) (xs : List α) :
    ((groupByLen ks xs).map Prod.fst).Nodup :=
  nodup_keys_groupPairs (ks.zip xs) [] (by simp)

/- Lemmas about the modelled rapidfuzz extract. -/

theorem extractR_length_none (score : Str → Str → ℚ) (q : Str) (refs : List Str) :
    (extractR score q refs none).length = refs.length := by
  simp [extractR]

theorem extractR_fst_mem {score : Str → Str → ℚ} {q : Str} {refs : List Str}
    {limit : Option Nat} {t : Str × ℚ × Nat} (h : t ∈ extractR score q refs limit) :
    t.1 ∈ refs := by
  have hmem : t ∈ List.insertionSort geScored (refs.enum.map (fun p => (p.2, score q p.2, p.1))) := by
    cases limit with
    | none => simpa [extractR] using h
    | some k => exact (List.take_subset k _) (by simpa [extractR] using h)
  have hs : t ∈ refs.enum.map (fun p => (p.2, score q p.2, p.1)) := by
    simpa using hmem
  rcases List.mem_map.mp hs with ⟨p, hp, he⟩
  have : t.1 = p.2 := by rw [← he]
  rw [this]
  exact List.snd_mem_of_mem_enum hp

/-- Splitting a mapped sum over a filter and its complement. -/
theorem sum_filter_partition {α : Type} (l : List α) (p : α → Bool) (f : α → Nat) :
    ((l.filter p).map f).sum + ((l.filter (fun x => !p x)).map f).sum = (l.map f).sum := by
  induction l with
  | nil => simp
  | cons a rest ih =>
    by_cases h : p a
    · simp [List.filter_cons, h, ih]
      omega
    · simp [List.filter_cons, h, ih]
      omega

/- Characterization of the bucket loop. -/

theorem procBuckets_cons (score : Str → Str → ℚ) (q : Str) (lmin lmax look_around : Int)
    (limit : Option Nat) (label : Str) (cd : ColData) (b : Nat × List Str)
    (rest : List (Nat × List Str)) :
    procBuckets score q lmin lmax look_around limit label cd (b :: rest) =
      if bucketFails lmin lmax look_around q.length b.1 then
        (((dictGet cd.ref_by_len b.1).getD []).length +
          (procBuckets score q lmin lmax look_around limit label cd rest).1,
         (procBuckets score q lmin lmax look_around limit label cd rest).2)
      else
        ((procBuckets score q lmin lmax look_around limit label cd rest).1,
         bucketTuples score q limit label cd b ++
           (procBuckets score q lmin lmax look_around limit label cd rest).2) := by
  by_cases h1 : (b.1 : Int) < lmin
  · simp [procBuckets, bucketFails, h1]
  · by_cases h2 : lmax ≠ 0 ∧ (b.1 : Int) > lmax
    · simp [procBuckets, bucketFails, h1, h2]
    · by_cases h3 : look_around > -1 ∧
          (Int.natAbs ((b.1 : Int) - (q.length : Int)) : Int) > look_around
      · simp [procBuckets, bucketFails, h1, h2, h3]
      · simp [procBuckets, bucketFails, h1, h2, h3]

theorem procBuckets_fst (score : Str → Str → ℚ) (q : Str) (lmin lmax look_around : Int)
    (limit : Option Nat) (label : Str) (cd : ColData) (bl : List (Nat × List Str)) :
    (procBuckets score q lmin lmax look_around limit label cd bl).1 =
      ((bl.filter (fun b => decide (bucketFails lmin lmax look_around q.length b.1))).map
        (fun b => ((dictGet cd.ref_by_len b.1).getD []).length)).sum := by
  induction bl with
  | nil => simp [procBuckets]
  | cons b rest ih =>
    rw [procBuckets_cons]
    by_cases hf : bucketFails lmin lmax look_around q.length b.1
    · simp [hf, List.filter_cons, ih]
    · simp [hf, List.filter_cons, ih]

theorem procBuckets_snd (score : Str → Str → ℚ) (q : Str) (lmin lmax look_around : Int)
    (limit : Option Nat) (label : Str) (cd : ColData) (bl : List (Nat × List Str)) :
    (procBuckets score q lmin lmax look_around limit label cd bl).2 =
      ((bl.filter (fun b => !decide (bucketFails lmin lmax look_around q.length b.1))).map
        (bucketTuples score q limit label cd)).flatten := by
  induction bl with
  | nil => simp [procBuckets]
  | cons b rest ih =>
    rw [procBuckets_cons]
    by_cases hf : bucketFails lmin lmax look_around q.length b.1
    · simp [hf, List.filter_cons, ih]
    · simp [hf, List.filter_cons, ih]

/- Characterization of the collection loop. -/

theorem procCols_ok (score : Str → Str → ℚ) (af : Str → Str)
    (lmin lmax look_around : Int) (limit : Option Nat) (lib : StringLib) :
    ∀ (q : Str) (cols : List Str) (total skipped : Nat) (temp : List Res5),
      procCols score af lmin lmax look_around limit lib q cols = .ok (total, skipped, temp) →
      total = ((colScan af lib q cols).map (fun t => t.2.1.num_ref)).sum ∧
      skipped = ((colScan af lib q cols).map (colSkip lmin lmax look_around)).sum ∧
      temp = ((colScan af lib q cols).map
        (colSurv score limit lmin lmax look_around)).flatten := by
  intro q cols
  induction cols generalizing q with
  | nil =>
    intro total skipped temp h
    simp [procCols] at h
    simp [colScan, ← h.1, ← h.2.1, ← h.2.2]
  | cons c rest ih =>
    intro total skipped temp h
    cases hget : dictGet lib.data c with
    | none => simp [procCols, hget] at h
    | some cd =>
      simp only [procCols, hget] at h
      cases hrec : procCols score af lmin lmax look_around limit lib (effQuery af cd q) rest with
      | error e => rw [hrec] at h; simp at h
      | ok out =>
        rw [hrec] at h
        obtain ⟨total2, skipped2, temp2⟩ := out
        simp only [Except.ok.injEq, Prod.mk.injEq] at h
        obtain ⟨ht, hs, hm⟩ := h
        rcases ih (effQuery af cd q) total2 skipped2 temp2 hrec with ⟨iht, ihs, ihm⟩
        have hscan : colScan af lib q (c :: rest) =
            (c, cd, effQuery af cd q) :: colScan af lib (effQuery af cd q) rest := by
          simp [colScan, hget]
        constructor
        · rw [← ht, hscan, iht]; simp
        constructor
        · rw [← hs, hscan, ihs]
          simp [colSkip, procBuckets_fst]
        · rw [← hm, hscan, ihm]
          simp [colSurv, procBuckets_snd]

/-- Every collection visited by the query loop is stored in the library. -/
theorem colScan_mem {af : Str → Str} {lib : StringLib} :
    ∀ {q : Str} {cols : List Str} {t : Str × ColData × Str},
      t ∈ colScan af lib q cols → (t.1, t.2.1) ∈ lib.data := by
  intro q cols
  induction cols generalizing q with
  | nil => intro t ht; simp [colScan] at ht
  | cons c rest ih =>
    intro t ht
    cases hget : dictGet lib.data c with
    | none => rw [colScan, hget] at ht; simp at ht
    | some cd =>
      rw [colScan, hget] at ht
      rcases List.mem_cons.mp ht with he | hm
      · subst he
        exact mem_of_dictGet_eq_some hget
      · exact ih hm

/-- Elimination principle for a successful, non-null run of the core of
get_top: the validation checks passed and the result fields are what the
collection loop produced. -/
theorem get_top_run_ok_elim {score : Str → Str → ℚ} {af : Str → Str} {lib : StringLib}
    {query : Str} {cols : List Str} {top look_around lmin lmax : Int}
    {r : QueryRes}
    (h : get_top_run score af lib query cols top look_around lmin lmax = .ok (some r)) :
    ∃ total skipped temp,
      procCols score af lmin lmax look_around (if top = 0 then none else some top.toNat)
          lib query cols = .ok (total, skipped, temp) ∧
      0 ≤ top ∧ -1 ≤ look_around ∧ 1 ≤ lmin ∧ 0 ≤ lmax ∧
      r.query = query ∧ r.collections = cols ∧ r.total = total ∧ r.skipped = skipped ∧
      r.tested = (total : Int) - (skipped : Int) ∧
      r.results = clampTop (if top = 0 then none else some top.toNat)
        (List.insertionSort ge5 temp) := by
  unfold get_top_run at h
  split at h
  · simp at h
  · split at h
    · simp at h
    · split at h
      · simp at h
      · split at h
        · simp at h
        · rename_i h1 h2 h3 h4
          by_cases ht0 : top = 0
          · simp only [ht0, if_true, reduceIte] at h ⊢
            cases hp : procCols score af lmin lmax look_around none lib query cols with
            | error e => rw [hp] at h; simp at h
            | ok out =>
              obtain ⟨total, skipped, temp⟩ := out
              rw [hp] at h
              simp only [Except.ok.injEq, Option.some.injEq] at h
              subst h
              exact ⟨total, skipped, temp, rfl, by omega, by omega, by omega, by omega,
                rfl, rfl, rfl, rfl, rfl, rfl⟩
          · simp only [if_neg ht0] at h ⊢
            cases hp : procCols score af lmin lmax look_around (some top.toNat) lib query cols with
            | error e => rw [hp] at h; simp at h
            | ok out =>
              obtain ⟨total, skipped, temp⟩ := out
              rw [hp] at h
              simp only [Except.ok.injEq, Option.some.injEq] at h
              subst h
              exact ⟨total, skipped, temp, rfl, by omega, by omega, by omega, by omega,
                rfl, rfl, rfl, rfl, rfl, rfl⟩

/-- A successful, non-null get_top call factors through get_top_run on the
resolved collection list, which the result records. -/
theorem get_top_ok_elim {score : Str → Str → ℚ} {af : Str → Str} {lib : StringLib}
    {query : Str} {collections : Option (List Str)} {top look_around lmin lmax : Int}
    {r : QueryRes}
    (h : get_top score af lib query collections top look_around lmin lmax = .ok (some r)) :
    get_top_run score af lib query r.collections top look_around lmin lmax = .ok (some r) := by
  unfold get_top at h
  split at h
  · simp at h
  · split at h
    · split at h
      · split at h
        · obtain ⟨_, _, _, _, _, _, _, _, _, hcc, _⟩ := get_top_run_ok_elim h
          rw [hcc]
          exact h
        · simp at h
      · obtain ⟨_, _, _, _, _, _, _, _, _, hcc, _⟩ := get_top_run_ok_elim h
        rw [hcc]
        exact h
    · obtain ⟨_, _, _, _, _, _, _, _, _, hcc, _⟩ := get_top_run_ok_elim h
      rw [hcc]
      exact h

/- Concrete instances of the two external capabilities, for the concrete
evaluations below: an ascii fold that keeps exactly the ASCII range (the real
NFKD fold is the identity on ASCII input, and drops unmappable characters),
and the discrete similarity scorer (1 on equal strings, 0 otherwise), which
satisfies the range and identity requirements of spec section 6. -/

def asciiIgnore : Str → Str := fun s => s.filter (fun c => c.toNat < 128)

def eqScore : Str → Str → ℚ := fun a b => if a = b then 1 else 0

/-- A default ColData (used only to extract concrete lookup results). -/
def cdDefault : ColData :=
  { ignore_case := true, to_ascii := true, no_strip := false, collection := []
    num_ref := 0, values := [], col_by_len := [], ref_by_len := [], val_by_len := [] }

/-- A library with one collection 'c' built from ["ab", "   ", " cd "] under
the default policy (ignore_case, to_ascii, strip). -/
def exLib : StringLib :=
  ((add_col asciiIgnore emptyLib (.lst [lit "ab", lit "   ", lit " cd "]) (lit "c")
    true true false).toOption).getD emptyLib

def exCd : ColData := (dictGet exLib.data (lit "c")).getD cdDefault

/-- The result of querying exLib for "AB" with the default parameters. -/
def exRes : QueryRes :=
  { query := lit "AB"
    skipped := 1
    total := 3
    results := [(lit "ab", lit "c", lit "ab", [], 1)]
    collections := [lit "c"]
    tested := 2 }

/-- A library holding collection 'c1' (references x1, x2; lower-casing only,
no ascii folding). -/
def libC1a : StringLib :=
  ((add_col asciiIgnore emptyLib (.lst [lit "x1", lit "x2"]) (lit "c1")
    true false false).toOption).getD emptyLib

def cdC1a : ColData := (dictGet libC1a.data (lit "c1")).getD cdDefault

/-- libC1a extended with collection 'c2' (references AB, Z) whose policy
applies no preprocessing at all. -/
def libC1 : StringLib :=
  ((add_col asciiIgnore libC1a (.lst [lit "AB", lit "Z"]) (lit "c2")
    false false true).toOption).getD emptyLib

/-- What get_top with the discrete scorer returns on libC1 for the query
"AB", top=0: every candidate of collection 'c2' scores 0 — the identity
match of its reference "AB" against the caller's query "AB" is missed,
because the query reaching 'c2' was already lower-cased by 'c1'. -/
def resC1 : QueryRes :=
  { query := lit "AB"
    skipped := 0
    total := 4
    results := [(lit "x1", lit "c1", lit "x1", [], 0), (lit "x2", lit "c1", lit "x2", [], 0),
      (lit "AB", lit "c2", lit "AB", [], 0), (lit "Z", lit "c2", lit "Z", [], 0)]
    collections := [lit "c1", lit "c2"]
    tested := 4 }

/-- C9: calling set_pre_opt with all three policy arguments left unset
returns normally, without signaling any error and without changing the
library, for every library and label — the empty-library and label-existence
checks are bypassed by the early return. -/
theorem claim_C9_set_pre_opt_all_none_noop (af : Str → Str) (lib : StringLib) (label : Str) :
    set_pre_opt af lib label none none none = .ok lib := by
  simp [set_pre_opt]

/-- C6: every non-null get_top result satisfies skipped + tested == total
(over the integers, tested being computed as total - skipped). -/
theorem claim_C6_skipped_tested_total (score : Str → Str → ℚ) (af : Str → Str)
    (lib : StringLib) (query : Str) (copt : Option (List Str))
    (top look_around lmin lmax : Int) (r : QueryRes)
    (h : get_top score af lib query copt top look_around lmin lmax = .ok (some r)) :
    (r.skipped : Int) + r.tested = (r.total : Int) := by
  obtain ⟨total, skipped, temp, _, _, _, _, _, _, _, htot, hskip, htest, _⟩ :=
    get_top_run_ok_elim (get_top_ok_elim h)
  rw [hskip, htest, htot]
  ring

theorem claim_C6_witness :
    get_top eqScore asciiIgnore exLib (lit "AB") none 1 (-1) 1 0 = .ok (some exRes) ∧
    (exRes.skipped : Int) + exRes.tested = (exRes.total : Int) :=
  ⟨by decide, claim_C6_skipped_tested_total eqScore asciiIgnore exLib (lit "AB") none
    1 (-1) 1 0 exRes (by decide)⟩

/-- libC1a after a second add_col under the already-used label 'c1'. -/
def libC2dup : StringLib :=
  ((add_col asciiIgnore libC1a (.lst [lit "y1", lit "y2"]) (lit "c1")
    true true false).toOption).getD emptyLib

/-- C2 (the code violates the claim): add_col with a label that is already
present does not fail — it returns normally, appends the label a second time
to the collections list, and overwrites the stored collection (here the
original references x1, x2 of 'c1' are replaced by y1, y2). -/
theorem claim_C2_duplicate_label_overwrites :
    add_col asciiIgnore libC1a (.lst [lit "y1", lit "y2"]) (lit "c1") true true false
        = .ok libC2dup ∧
    libC1a.collections = [lit "c1"] ∧
    libC2dup.collections = [lit "c1", lit "c1"] ∧
    (dictGet libC1a.data (lit "c1")).map (fun cd => cd.collection) = some [lit "x1", lit "x2"] ∧
    (dictGet libC2dup.data (lit "c1")).map (fun cd => cd.collection) = some [lit "y1", lit "y2"] := by
  decide

/-- libC1a extended with a second collection 'c2' (references q1, q2). -/
def libC8 : StringLib :=
  ((add_col asciiIgnore libC1a (.lst [lit "q1", lit "q2"]) (lit "c2")
    true true false).toOption).getD emptyLib

/-- The state libC8 reaches after ren_col('c1', 'c2'). -/
def libC8ren : StringLib :=
  (((ren_col libC8 (lit "c1") (lit "c2")).toOption).getD (libC8, true)).1

/-- C8 (the code violates the claim): renaming 'c1' onto the existing label
'c2' does not fail with a duplicate-label error — it overwrites the 'c2'
collection with the data of 'c1' and leaves the label list holding 'c2'
twice. A missing old label does leave the library unchanged, but is reported
only through a printed message (the Bool flag), not an exception. -/
theorem claim_C8_rename_onto_existing_overwrites :
    ren_col libC8 (lit "c1") (lit "c2") = .ok (libC8ren, false) ∧
    libC8ren.collections = [lit "c2", lit "c2"] ∧
    (dictGet libC8ren.data (lit "c2")).map (fun cd => cd.collection) = some [lit "x1", lit "x2"] ∧
    ren_col libC8 (lit "zz") (lit "c3") = .ok (libC8, true) := by
  decide

/-- C1 (the code violates the claim): the query is not re-normalized
independently per collection. With the discrete scorer, querying libC1 for
"AB" scores every candidate of 'c2' as 0 (resC1) — in particular its
reference "AB" — although applying the policy of 'c2' to the caller's query
yields "AB", which the scorer matches at 1. The query value that reaches
'c2' is the one mutated by the lower-casing policy of 'c1'. -/
theorem claim_C1_query_mutation_leaks_across_collections :
    get_top eqScore asciiIgnore libC1 (lit "AB") none 0 (-1) 1 0 = .ok (some resC1) ∧
    (dictGet libC1.data (lit "c2")).map (fun cd => effQuery asciiIgnore cd (lit "AB"))
        = some (lit "AB") ∧
    (dictGet libC1.data (lit "c2")).map (fun cd => (cd.ref_by_len.map Prod.snd).flatten.contains (lit "AB"))
        = some true ∧
    eqScore (lit "AB") (lit "AB") = 1 := by
  decide

theorem mem_dictSet {κ α : Type} [DecidableEq κ] {m : List (κ × α)} {k : κ} {v : α}
    {p : κ × α} (h : p ∈ dictSet m k v) : p ∈ m ∨ p = (k, v) := by
  induction m with
  | nil => simp [dictSet] at h; exact Or.inr h
  | cons q rest ih =>
    by_cases hq : q.1 = k
    · simp [dictSet, hq] at h
      rcases h with h | h
      · exact Or.inr h
      · exact Or.inl (List.mem_cons_of_mem q h)
    · simp [dictSet, hq] at h
      rcases h with h | h
      · exact Or.inl (by simp [h])
      · rcases ih h with h2 | h2
        · exact Or.inl (List.mem_cons_of_mem q h2)
        · exact Or.inr h2

theorem itemsKeys_length (items : Items) : (itemsKeys items).length = itemsLen items := by
  cases items <;> simp [itemsKeys, itemsLen]

theorem itemsVals_length (items : Items) : (itemsVals items).length = itemsLen items := by
  cases items <;> simp [itemsVals, itemsLen]

/-- A successful add_col call requires at least 2 items and returns exactly
the library extended with the built collection. -/
theorem add_col_ok_elim {af : Str → Str} {lib : StringLib} {items : Items} {label : Str}
    {ic ta ns : Bool} {lib2 : StringLib}
    (h : add_col af lib items label ic ta ns = .ok lib2) :
    1 < itemsLen items ∧
    lib2 = { collections := lib.collections ++ [label]
             data := dictSet lib.data label (builtCol af items ic ta ns) } := by
  unfold add_col at h
  split at h
  · simp only [Except.ok.injEq] at h
    exact ⟨by omega, h.symm⟩
  · simp at h

/-- The collection built by add_col is well-formed. -/
theorem WFcol_builtCol (af : Str → Str) (items : Items) (ic ta ns : Bool) :
    WFcol (builtCol af items ic ta ns) := by
  refine ⟨?_, ?_, ?_⟩
  · cases ta <;> cases ic <;> cases ns <;> exact nodup_keys_groupByLen _ _
  · cases ta <;> cases ic <;> cases ns <;>
      · show sumSizes (groupByLen _ _) = _
        rw [sumSizes_groupByLen _ _ (by simp)]
        simp [itemsKeys_length, builtCol]
  · cases ta <;> cases ic <;> cases ns <;>
      · intro b hb s hs
        exact (mem_groupByLen_self_key hb hs).2

/-- add_col preserves library well-formedness. -/
theorem add_col_WF {af : Str → Str} {lib : StringLib} {items : Items} {label : Str}
    {ic ta ns : Bool} {lib2 : StringLib} (hwf : WF lib)
    (h : add_col af lib items label ic ta ns = .ok lib2) : WF lib2 := by
  obtain ⟨-, rfl⟩ := add_col_ok_elim h
  intro p hp
  rcases mem_dictSet hp with hm | he
  · exact hwf p hm
  · rw [he]
    exact WFcol_builtCol af items ic ta ns

/-- The first component of every entry of the full col_info listing is an
element of some col_by_len bucket. -/
theorem colFullListing_fst_mem {cd : ColData} {e : Str × Str × Val}
    (h : e ∈ colFullListing cd) : ∃ b ∈ cd.col_by_len, e.1 ∈ b.2 := by
  unfold colFullListing at h
  rcases List.mem_flatten.mp h with ⟨L, hL, heL⟩
  rcases List.mem_map.mp hL with ⟨b, hb, hbe⟩
  subst hbe
  rcases List.mem_map.mp heL with ⟨p, hp, hpe⟩
  refine ⟨b, hb, ?_⟩
  have : e.1 = p.2 := by rw [← hpe]
  rw [this]
  exact List.snd_mem_of_mem_enum hp

/-- C10: when stripping is enabled (no_strip = false), every 'original'
string stored per entry — the first component of the full col_info listing,
drawn from the col_by_len buckets — is the whitespace-stripped form of one
of the caller-supplied strings, not necessarily the exact supplied string. -/
theorem claim_C10_stored_originals_stripped (af : Str → Str) (lib : StringLib)
    (items : Items) (label : Str) (ic ta : Bool) (lib2 : StringLib)
    (h : add_col af lib items label ic ta false = .ok lib2)
    (cd : ColData) (hcd : dictGet lib2.data label = some cd) :
    (∃ info, col_info lib2 label true = .ok info ∧
      info.collection = some (colFullListing cd)) ∧
    ∀ e ∈ colFullListing cd, ∃ s ∈ itemsKeys items, e.1 = pyStrip s := by
  obtain ⟨-, rfl⟩ := add_col_ok_elim h
  rw [dictGet_dictSet_self] at hcd
  have hcd2 : cd = builtCol af items ic ta false := by injection hcd.symm
  constructor
  · unfold col_info
    rw [if_neg (by simp)]
    rw [show dictGet (dictSet lib.data label (builtCol af items ic ta false)) label
        = some cd from by rw [dictGet_dictSet_self, hcd2]]
    exact ⟨_, rfl, rfl⟩
  · intro e he
    rcases colFullListing_fst_mem he with ⟨b, hb, hfst⟩
    rw [hcd2] at hb
    simp only [builtCol, Bool.not_false, if_true] at hb
    have hmem := mem_groupByLen hb hfst
    have hpre := (List.of_mem_zip hmem).2
    rcases List.mem_map.mp hpre with ⟨s, hs, hse⟩
    exact ⟨s, hs, hse.symm⟩

theorem claim_C10_witness :
    (add_col asciiIgnore emptyLib (.lst [lit "ab", lit "   ", lit " cd "]) (lit "c")
        true true false = .ok exLib) ∧
    dictGet exLib.data (lit "c") = some exCd ∧
    (∀ e ∈ colFullListing exCd,
      ∃ s ∈ itemsKeys (.lst [lit "ab", lit "   ", lit " cd "]), e.1 = pyStrip s) ∧
    exCd.col_by_len = [(2, [lit "ab", lit "cd"]), (0, [[]])] :=
  ⟨by decide, by decide,
    (claim_C10_stored_originals_stripped asciiIgnore emptyLib
      (.lst [lit "ab", lit "   ", lit " cd "]) (lit "c") true true exLib
      (by decide) exCd (by decide)).2,
    by decide⟩

/-- C3 as stated is false on the code: the build-time dropping of
empty-normalized entries is commented out in the source. Under the default
policy (stripping enabled), the whitespace-only entry "   " IS indexed: it
ends up, with empty normalized form, in the length-0 bucket of every
by-length dict. -/
theorem claim_C3_counterexample :
    add_col asciiIgnore emptyLib (.lst [lit "ab", lit "   ", lit " cd "]) (lit "c")
        true true false = .ok exLib ∧
    dictGet exLib.data (lit "c") = some exCd ∧
    exCd.ref_by_len = [(2, [lit "ab", lit "cd"]), (0, [[]])] ∧
    sumSizes exCd.ref_by_len = 3 := by
  decide

theorem mem_clampTop {limit : Option Nat} {l : List Res5} {t : Res5}
    (h : t ∈ clampTop limit l) : t ∈ l := by
  cases limit with
  | none => simpa [clampTop] using h
  | some k => exact List.take_subset k l (by simpa [clampTop] using h)

/-- Unpacking membership in the surviving tuples of one collection. -/
theorem mem_colSurv {score : Str → Str → ℚ} {limit : Option Nat}
    {lmin lmax look_around : Int} {t : Res5} {tt : Str × ColData × Str}
    (h : t ∈ colSurv score limit lmin lmax look_around tt) :
    ∃ b ∈ tt.2.1.ref_by_len, ¬bucketFails lmin lmax look_around tt.2.2.length b.1 ∧
      ∃ tr ∈ extractR score tt.2.2 b.2 limit, t = mkTuple tt.1 tt.2.1 b.1 tr := by
  unfold colSurv at h
  rcases List.mem_flatten.mp h with ⟨L, hL, htL⟩
  rcases List.mem_map.mp hL with ⟨b, hb, hbe⟩
  subst hbe
  refine ⟨b, List.mem_of_mem_filter hb, ?_, ?_⟩
  · have := List.of_mem_filter hb
    simpa using this
  · rcases List.mem_map.mp htL with ⟨tr, htr, hte⟩
    exact ⟨tr, htr, hte.symm⟩

/-- C3 amended: no entry is dropped at build time under any policy — add_col
indexes every supplied entry (the bucket sizes always sum to the number of
items), entries with empty normalized form landing in the length-0 bucket —
but such entries can never be returned by a query, because get_top enforces
lmin at least 1 and so always skips the length-0 bucket. -/
theorem claim_C3_amended :
    (∀ (af : Str → Str) (lib : StringLib) (items : Items) (label : Str)
        (ic ta ns : Bool) (lib2 : StringLib),
      add_col af lib items label ic ta ns = .ok lib2 →
      ∀ cd, dictGet lib2.data label = some cd → sumSizes cd.ref_by_len = itemsLen items) ∧
    (∀ (score : Str → Str → ℚ) (af : Str → Str) (lib : StringLib) (query : Str)
        (copt : Option (List Str)) (top look_around lmin lmax : Int) (r : QueryRes),
      WF lib → get_top score af lib query copt top look_around lmin lmax = .ok (some r) →
      ∀ t ∈ r.results, t.2.2.1 ≠ ([] : Str)) := by
  constructor
  · intro af lib items label ic ta ns lib2 h cd hcd
    obtain ⟨-, rfl⟩ := add_col_ok_elim h
    rw [dictGet_dictSet_self] at hcd
    have hcd2 : cd = builtCol af items ic ta ns := by injection hcd.symm
    rw [hcd2, (WFcol_builtCol af items ic ta ns).2.1]
    simp [builtCol, itemsKeys_length]
  · intro score af lib query copt top look_around lmin lmax r hwf h t ht
    obtain ⟨total, skipped, temp, hproc, htop, hla, hlmin, hlmax, hq, hcols, htot,
      hskip, htest, hres⟩ := get_top_run_ok_elim (get_top_ok_elim h)
    rw [hres] at ht
    have ht2 : t ∈ temp := by
      have := mem_clampTop ht
      simpa using this
    obtain ⟨-, -, htemp⟩ := procCols_ok score af lmin lmax look_around
      (if top = 0 then none else some top.toNat) lib query r.collections
      total skipped temp hproc
    rw [htemp] at ht2
    rcases List.mem_flatten.mp ht2 with ⟨L, hL, htL⟩
    rcases List.mem_map.mp hL with ⟨tt, htt, hLe⟩
    subst hLe
    rcases mem_colSurv htL with ⟨b, hb, hpass, tr, htr, hte⟩
    have hlen : tr.1.length = b.1 :=
      (hwf (tt.1, tt.2.1) (colScan_mem htt)).2.2 b hb tr.1 (extractR_fst_mem htr)
    have hb1 : 1 ≤ b.1 := by
      unfold bucketFails at hpass
      push_neg at hpass
      have := hpass.1
      omega
    subst hte
    show tr.1 ≠ []
    have hpos : 0 < tr.1.length := by omega
    exact List.length_pos.mp hpos

theorem claim_C3_amended_witness :
    (add_col asciiIgnore emptyLib (.lst [lit "ab", lit "   ", lit " cd "]) (lit "c")
        true true false = .ok exLib ∧
      sumSizes exCd.ref_by_len = itemsLen (.lst [lit "ab", lit "   ", lit " cd "])) ∧
    (WF exLib ∧
      get_top eqScore asciiIgnore exLib (lit "AB") none 1 (-1) 1 0 = .ok (some exRes) ∧
      ∀ t ∈ exRes.results, t.2.2.1 ≠ ([] : Str)) :=
  ⟨⟨by decide, claim_C3_amended.1 asciiIgnore emptyLib
      (.lst [lit "ab", lit "   ", lit " cd "]) (lit "c") true true false exLib
      (by decide) exCd (by decide)⟩,
    ⟨by decide, by decide,
      claim_C3_amended.2 eqScore asciiIgnore exLib (lit "AB") none 1 (-1) 1 0 exRes
        (by decide) (by decide)⟩⟩

/-- What one collection adds to 'skipped', written with each failing bucket's
own size (equal to colSkip when the bucket keys are distinct). -/
def colSkipSizes (lmin lmax look_around : Int) (t : Str × ColData × Str) : Nat :=
  ((t.2.1.ref_by_len.filter
      (fun b => decide (bucketFails lmin lmax look_around t.2.2.length b.1))).map
    (fun b => b.2.length)).sum

theorem colSkip_eq_sizes {lmin lmax look_around : Int} {tt : Str × ColData × Str}
    (hnd : (tt.2.1.ref_by_len.map Prod.fst).Nodup) :
    colSkip lmin lmax look_around tt = colSkipSizes lmin lmax look_around tt := by
  unfold colSkip colSkipSizes
  congr 1
  apply List.map_congr_left
  intro b hb
  have hb2 : (b.1, b.2) ∈ tt.2.1.ref_by_len := List.mem_of_mem_filter hb
  rw [dictGet_of_mem_nodup hnd hb2]
  rfl

/-- C4: in every non-null get_top result on a well-formed library, skipped is
exactly the sum of the full sizes of the buckets failing the lmin, lmax or
look_around conditions (with respect to each collection's normalized query
length), every returned tuple comes from a surviving bucket, and a bucket
failing lmin or a nonzero lmax is skipped regardless of the look_around
value. -/
theorem claim_C4_bucket_pruning (score : Str → Str → ℚ) (af : Str → Str)
    (lib : StringLib) (query : Str) (copt : Option (List Str))
    (top look_around lmin lmax : Int) (r : QueryRes)
    (hwf : WF lib) (h : get_top score af lib query copt top look_around lmin lmax = .ok (some r)) :
    r.skipped = ((colScan af lib query r.collections).map
      (colSkipSizes lmin lmax look_around)).sum ∧
    (∀ t ∈ r.results,
      t ∈ ((colScan af lib query r.collections).map
        (colSurv score (if top = 0 then none else some top.toNat) lmin lmax look_around)).flatten) ∧
    (∀ qlen len : Nat, ((len : Int) < lmin ∨ (lmax ≠ 0 ∧ (len : Int) > lmax)) →
      ∀ la2 : Int, bucketFails lmin lmax la2 qlen len) := by
  obtain ⟨total, skipped, temp, hproc, htop, hla, hlmin, hlmax, hq, hcols, htot,
    hskip, htest, hres⟩ := get_top_run_ok_elim (get_top_ok_elim h)
  obtain ⟨htotS, hskipS, htempS⟩ := procCols_ok score af lmin lmax look_around
    (if top = 0 then none else some top.toNat) lib query r.collections
    total skipped temp hproc
  refine ⟨?_, ?_, ?_⟩
  · rw [hskip, hskipS]
    congr 1
    apply List.map_congr_left
    intro tt htt
    exact colSkip_eq_sizes (hwf (tt.1, tt.2.1) (colScan_mem htt)).1
  · intro t ht
    rw [hres] at ht
    have ht2 := mem_clampTop ht
    rw [← htempS]
    simpa using ht2
  · intro qlen len hcase la2
    unfold bucketFails
    rcases hcase with h1 | h2
    · exact Or.inl h1
    · exact Or.inr (Or.inl h2)

theorem claim_C4_witness :
    WF exLib ∧
    get_top eqScore asciiIgnore exLib (lit "AB") none 1 (-1) 1 0 = .ok (some exRes) ∧
    (exRes.skipped = ((colScan asciiIgnore exLib (lit "AB") exRes.collections).map
        (colSkipSizes 1 0 (-1))).sum ∧
      (∀ t ∈ exRes.results,
        t ∈ ((colScan asciiIgnore exLib (lit "AB") exRes.collections).map
          (colSurv eqScore (if (1 : Int) = 0 then none else some (1 : Int).toNat)
            1 0 (-1))).flatten) ∧
      (∀ qlen len : Nat, ((len : Int) < 1 ∨ ((0 : Int) ≠ 0 ∧ (len : Int) > 0)) →
        ∀ la2 : Int, bucketFails 1 0 la2 qlen len)) :=
  ⟨by decide, by decide,
    claim_C4_bucket_pruning eqScore asciiIgnore exLib (lit "AB") none 1 (-1) 1 0 exRes
      (by decide) (by decide)⟩

theorem sum_map_add {α : Type} (l : List α) (f g : α → Nat) :
    (l.map (fun x => f x + g x)).sum = (l.map f).sum + (l.map g).sum := by
  induction l with
  | nil => simp
  | cons a rest ih =>
    simp [ih]
    omega

/-- With no per-bucket limit, the surviving tuples of one well-formed
collection and its skipped count partition its entry count. -/
theorem colSurv_length_add_colSkip {score : Str → Str → ℚ} {lmin lmax look_around : Int}
    {tt : Str × ColData × Str} (hwf : WFcol tt.2.1) :
    (colSurv score none lmin lmax look_around tt).length +
      colSkip lmin lmax look_around tt = tt.2.1.num_ref := by
  rw [colSkip_eq_sizes hwf.1]
  unfold colSurv colSkipSizes
  rw [List.length_flatten, List.map_map]
  have hbt : ∀ b ∈ tt.2.1.ref_by_len.filter
      (fun b => !decide (bucketFails lmin lmax look_around tt.2.2.length b.1)),
      (List.length ∘ bucketTuples score tt.2.2 none tt.1 tt.2.1) b = b.2.length := by
    intro b hb
    simp [bucketTuples, extractR_length_none]
  rw [List.map_congr_left hbt]
  rw [Nat.add_comm, sum_filter_partition]
  exact hwf.2.1

/-- C5: in every non-null get_top result on a well-formed library, results is
sorted by score non-increasing; with a positive top it holds at most top
entries; with top = 0 its length equals tested. -/
theorem claim_C5_results_sorted_capped (score : Str → Str → ℚ) (af : Str → Str)
    (lib : StringLib) (query : Str) (copt : Option (List Str))
    (top look_around lmin lmax : Int) (r : QueryRes)
    (hwf : WF lib)
    (h : get_top score af lib query copt top look_around lmin lmax = .ok (some r)) :
    List.Pairwise ge5 r.results ∧
    (0 < top → (r.results.length : Int) ≤ top) ∧
    (top = 0 → (r.results.length : Int) = r.tested) := by
  obtain ⟨total, skipped, temp, hproc, htop, hla, hlmin, hlmax, hq, hcols, htot,
    hskip, htest, hres⟩ := get_top_run_ok_elim (get_top_ok_elim h)
  have hsorted : List.Pairwise ge5 (List.insertionSort ge5 temp) :=
    List.sorted_insertionSort ge5 temp
  refine ⟨?_, ?_, ?_⟩
  · rw [hres]
    by_cases ht0 : top = 0
    · simpa [clampTop, ht0] using hsorted
    · simp only [if_neg ht0, clampTop]
      exact List.Pairwise.sublist (List.take_sublist _ _) hsorted
  · intro hpos
    have ht0 : ¬ top = 0 := by omega
    rw [hres]
    simp only [if_neg ht0, clampTop]
    have h1 : ((List.insertionSort ge5 temp).take top.toNat).length ≤ top.toNat := by
      simp [List.length_take]
    calc (((List.insertionSort ge5 temp).take top.toNat).length : Int)
        ≤ (top.toNat : Int) := by exact_mod_cast h1
      _ = top := Int.toNat_of_nonneg htop
  · intro ht0
    subst ht0
    have hnone : (if (0 : Int) = 0 then none else some (Int.toNat 0)) = (none : Option Nat) := rfl
    rw [hnone] at hproc hres
    obtain ⟨htotS, hskipS, htempS⟩ := procCols_ok score af lmin lmax look_around
      none lib query r.collections total skipped temp hproc
    have hlen : temp.length + skipped = total := by
      rw [htempS, hskipS, htotS, List.length_flatten, List.map_map]
      rw [← sum_map_add]
      congr 1
      apply List.map_congr_left
      intro tt htt
      exact colSurv_length_add_colSkip (hwf (tt.1, tt.2.1) (colScan_mem htt))
    rw [hres, htest]
    simp only [clampTop, List.length_insertionSort]
    omega

theorem claim_C5_witness :
    WF exLib ∧
    get_top eqScore asciiIgnore exLib (lit "AB") none 1 (-1) 1 0 = .ok (some exRes) ∧
    (List.Pairwise ge5 exRes.results ∧
      (0 < (1 : Int) → (exRes.results.length : Int) ≤ 1) ∧
      ((1 : Int) = 0 → (exRes.results.length : Int) = exRes.tested)) :=
  ⟨by decide, by decide,
    claim_C5_results_sorted_capped eqScore asciiIgnore exLib (lit "AB") none 1 (-1) 1 0 exRes
      (by decide) (by decide)⟩

/-- A library with one collection 'c' whose originals contain a duplicate. -/
def lib7 : StringLib :=
  ((add_col asciiIgnore emptyLib (.lst [lit "a", lit "a", lit "b"]) (lit "c")
    true true false).toOption).getD emptyLib

def lib7after : StringLib :=
  ((set_pre_opt asciiIgnore lib7 (lit "c") (some false) (some true) (some false)).toOption).getD
    emptyLib

def lib7readd : StringLib :=
  (((del_col lib7 (lit "c")).bind (fun l1 => add_col asciiIgnore l1
    (.lst [lit "a", lit "a", lit "b"]) (lit "c") false true false)).toOption).getD emptyLib

/-- C7 as stated is false on the code: when the stored originals contain
duplicates, set_pre_opt rebuilds through dict(zip(collection, values)),
which collapses them. Here 'c' holds the originals [a, a, b]; changing the
policy leaves a collection of 2 entries, while deleting and re-adding the
same label with its original contents gives 3 entries — different states. -/
theorem claim_C7_counterexample :
    set_pre_opt asciiIgnore lib7 (lit "c") (some false) (some true) (some false)
        = .ok lib7after ∧
    (del_col lib7 (lit "c")).bind (fun l1 => add_col asciiIgnore l1
        (.lst [lit "a", lit "a", lit "b"]) (lit "c") false true false) = .ok lib7readd ∧
    (dictGet lib7.data (lit "c")).map (fun cd => cd.collection)
        = some [lit "a", lit "a", lit "b"] ∧
    (dictGet lib7after.data (lit "c")).map (fun cd => cd.num_ref) = some 2 ∧
    (dictGet lib7readd.data (lit "c")).map (fun cd => cd.num_ref) = some 3 ∧
    lib7after ≠ lib7readd := by
  decide

theorem map_fst_zip_sublist {α β : Type} :
    ∀ (l1 : List α) (l2 : List β), ((l1.zip l2).map Prod.fst).Sublist l1 := by
  intro l1
  induction l1 with
  | nil => intro l2; simp
  | cons a rest ih =>
    intro l2
    cases l2 with
    | nil => simp
    | cons b rest2 =>
      simp only [List.zip_cons_cons, List.map_cons]
      exact (ih rest2).cons₂ a

/-- C7 amended: for a collection whose stored originals are pairwise
distinct, set_pre_opt with a policy equal to the current one returns the
library unchanged, and with a different policy it equals del_col followed by
add_col of the original-to-value pairs under the new policy (so the claim
holds except that duplicate originals are collapsed by the rebuild). -/
theorem claim_C7_amended (af : Str → Str) (lib : StringLib) (label : Str) (cd : ColData)
    (ic ta ns : Bool)
    (hcd : dictGet lib.data label = some cd)
    (hnd : cd.collection.Nodup)
    (hin : label ∈ lib.collections) :
    ((ic, ta, ns) = (cd.ignore_case, cd.to_ascii, cd.no_strip) →
      set_pre_opt af lib label (some ic) (some ta) (some ns) = .ok lib) ∧
    ((ic, ta, ns) ≠ (cd.ignore_case, cd.to_ascii, cd.no_strip) →
      set_pre_opt af lib label (some ic) (some ta) (some ns) =
        (del_col lib label).bind (fun lib1 =>
          add_col af lib1 (.dct (cd.collection.zip cd.values)) label ic ta ns)) := by
  have hne : lib.collections ≠ [] := by
    intro he
    rw [he] at hin
    simp at hin
  have hzipnd : ((cd.collection.zip cd.values).map Prod.fst).Nodup :=
    List.Nodup.sublist (map_fst_zip_sublist cd.collection cd.values) hnd
  constructor
  · intro heq
    simp only [Prod.mk.injEq] at heq
    obtain ⟨h1, h2, h3⟩ := heq
    simp [set_pre_opt, hcd, hne, h1, h2, h3]
  · intro hneq
    have hcon : ¬(cd.ignore_case = ic ∧ cd.to_ascii = ta ∧ cd.no_strip = ns) := by
      intro hcon
      exact hneq (by simp [hcon.1.symm, hcon.2.1.symm, hcon.2.2.symm])
    simp only [set_pre_opt, hcd, Option.getD_some]
    rw [if_neg (by simp), if_neg hne, if_neg hcon]
    simp only [dictOfPairs_of_nodup hzipnd]
    cases del_col lib label <;> rfl

theorem claim_C7_witness :
    dictGet libC1a.data (lit "c1") = some cdC1a ∧
    cdC1a.collection.Nodup ∧
    (lit "c1") ∈ libC1a.collections ∧
    (((false, false, false) = (cdC1a.ignore_case, cdC1a.to_ascii, cdC1a.no_strip) →
        set_pre_opt asciiIgnore libC1a (lit "c1") (some false) (some false) (some false)
          = .ok libC1a) ∧
      ((false, false, false) ≠ (cdC1a.ignore_case, cdC1a.to_ascii, cdC1a.no_strip) →
        set_pre_opt asciiIgnore libC1a (lit "c1") (some false) (some false) (some false) =
          (del_col libC1a (lit "c1")).bind (fun lib1 =>
            add_col asciiIgnore lib1 (.dct (cdC1a.collection.zip cdC1a.values)) (lit "c1")
              false false false))) :=
  ⟨by decide, by decide, by decide,
    claim_C7_amended asciiIgnore libC1a (lit "c1") cdC1a false false false
      (by decide) (by decide) (by decide)⟩
